import Mathlib

/-!
Verification of the SGP30 i2c driver (`src/sgp30/sgp30.py`) against its
specification.  The driver is shallowly embedded: bytes are `Nat` values
below 256, parameter words are 16-bit values, bus traffic is modelled as
the list of write transactions a call performs, and Python exceptions are
modelled by an explicit error type.
-/

namespace SGP30

/-- Python exceptions raised by the driver:
`invalidCRC` models `InvalidCRC(f"CRC of {block[:-1]} != {block[-1:]}")`
(carrying the offending block's data bytes and checksum byte),
`structError` models `struct.error` from `pack`/`unpack`,
`assertError` models the `assert len(data) == 2` failure inside `_crc`,
`valueError` models `ValueError` from `set_humidity` validation, and
`busError` models a failure of the underlying i2c read/write primitive. -/
inductive PyErr where
  | invalidCRC (data : List Nat) (check : List Nat)
  | structError
  | assertError
  | valueError
  | busError
deriving DecidableEq, Repr

/-- One round of the inner loop of `SGP30._crc`:
`crc = ((crc << 1) ^ 0x31) if crc & 0x80 else (crc << 1)`.
As in the Python, the accumulator is not masked inside the loop. -/
def step (c : Nat) : Nat :=
  if c.testBit 7 then (c <<< 1) ^^^ 0x31 else c <<< 1

/-- `n` iterations of the inner loop of `SGP30._crc`. -/
def crcRounds : Nat → Nat → Nat
  | 0, c => c
  | n + 1, c => crcRounds n (step c)

/-- One iteration of the outer loop of `SGP30._crc`:
`crc ^= byte` followed by eight inner rounds. -/
def crcByte (crc byte : Nat) : Nat :=
  crcRounds 8 (crc ^^^ byte)

/-- `SGP30._crc(bytes([b0, b1]))`: CRC-8, polynomial 0x31, initial value
0xFF, masked to eight bits only at the end (`crc & 0xFF`).  The Python
function takes a 2-byte string (asserting `len(data) == 2`); here the two
bytes are the two arguments. -/
def _crc (b0 b1 : Nat) : Nat :=
  crcByte (crcByte 0xFF b0) b1 &&& 0xFF

/-- `SGP30._decode(raw_data, n_parameters)`: check the CRC of each 3-byte
block (raising `InvalidCRC` with the block's data and checksum bytes at
the first mismatch), then unpack each block's first two bytes as a
big-endian 16-bit word.  A block shorter than 3 bytes trips the
`assert len(data) == 2` in `_crc`; leftover bytes after `n_parameters`
blocks make `unpack` raise `struct.error`. -/
def _decode : List Nat → Nat → Except PyErr (List Nat)
  | raw, 0 => if raw = [] then .ok [] else .error .structError
  | a :: b :: c :: rest, n + 1 =>
    if _crc a b ≠ c then .error (.invalidCRC [a, b] [c])
    else
      match _decode rest n with
      | .ok ws => .ok ((a * 256 + b) :: ws)
      | .error e => .error e
  | _, _ + 1 => .error .assertError

/-- The 3-byte wire block of one in-range parameter word: `pack(">H", w)`
followed by its CRC byte. -/
def encodeWord (w : Nat) : List Nat :=
  [w / 256, w % 256, _crc (w / 256) (w % 256)]

/-- `SGP30._encode(parameters)`: for each parameter append its big-endian
2-byte representation and the CRC of those two bytes.  `pack(">H", p)`
raises `struct.error` when `p` is not in `0..65535` (parameters are Python
ints, possibly negative). -/
def _encode : List Int → Except PyErr (List Nat)
  | [] => .ok []
  | p :: rest =>
    if 0 ≤ p ∧ p < 65536 then
      match _encode rest with
      | .ok tail => .ok (encodeWord p.toNat ++ tail)
      | .error e => .error e
    else .error .structError

/-- The frame `_encode` produces on a list of in-range words. -/
def encodeNat : List Nat → List Nat
  | [] => []
  | w :: ws => encodeWord w ++ encodeNat ws

/-- Corruption model for the single-bit-flip claim: flip bit `j` of the
byte at offset `pos` of a frame (a too-short frame is returned
unchanged). -/
def flipBit : List Nat → Nat → Nat → List Nat
  | [], _, _ => []
  | x :: xs, 0, j => (x ^^^ (1 <<< j)) :: xs
  | x :: xs, pos + 1, j => x :: flipBit xs pos j

/-- Python `int()` applied to a numeric value: truncation toward zero.
Float arguments of the driver are modelled as exact rationals. -/
def pyInt (q : ℚ) : Int :=
  if 0 ≤ q then ⌊q⌋ else ⌈q⌉

/-- Session state of an `SGP30` object: of the fields set in `__init__`,
only `latest_measurement` is ever mutated (the bus handle and address only
mediate transactions and are left implicit). -/
structure Session where
  latest_measurement : Option (Nat × Nat)
deriving DecidableEq, Repr

/-- The write half of `SGP30._command`: build `command + _encode(parameters)`
and issue it as a single bus write.  Returns the list of bus write
transactions performed and the outcome; a `struct.error` raised inside
`_encode` happens before `i2c_rdwr`, so then no write occurs. -/
def _command_write (command : List Nat) (parameters : Option (List Int)) :
    List (List Nat) × Except PyErr Unit :=
  match parameters with
  | none => ([command], .ok ())
  | some ps =>
    match _encode ps with
    | .ok frame => ([command ++ frame], .ok ())
    | .error e => ([], .error e)

/-- The read half of `SGP30._command` with `read_parameters = n`: the bus
read either fails at the i2c level or yields `3 * n` raw bytes which are
passed to `_decode`. -/
def _command_read (busRead : Except PyErr (List Nat)) (n : Nat) :
    Except PyErr (List Nat) :=
  match busRead with
  | .error e => .error e
  | .ok raw => _decode raw n

/-- `SGP30.set_humidity(humidity)`: raise `ValueError` when
`int(humidity) > 255`, otherwise write opcode `20 61` with the single
parameter word `int(humidity * 255)`.  The session state is never touched
by the Python body and is returned unchanged on every path.  Returns the
resulting session, the bus writes performed, and the outcome. -/
def set_humidity (s : Session) (humidity : ℚ) :
    Session × List (List Nat) × Except PyErr Unit :=
  if 255 < pyInt humidity then (s, [], .error .valueError)
  else (s, _command_write [0x20, 0x61] (some [pyInt (humidity * 255)]))

/-- The `SGP30.baseline` getter: a 2-word read with opcode `20 15`,
returned as the tuple `(data[0], data[1])` (read order CO2eq / TVOC).
`busRead` is the outcome of the 6-byte i2c read. -/
def baseline_get (busRead : Except PyErr (List Nat)) : Except PyErr (Nat × Nat) :=
  match _command_read busRead 2 with
  | .error e => .error e
  | .ok data => .ok (data.getD 0 0, data.getD 1 0)

/-- The `SGP30.baseline` setter: write opcode `20 1E` with parameter words
`[values[1], values[0]]` (wire order TVOC / CO2eq, reversed from the
getter).  Returns the bus writes performed and the outcome. -/
def baseline_set (values : Nat × Nat) : List (List Nat) × Except PyErr Unit :=
  _command_write [0x20, 0x1E] (some [Int.ofNat values.2, Int.ofNat values.1])

/-- `SGP30.measure()`: a 2-word read with opcode `20 08`; on success the
decoded words `(equivalent_co2, tvoc)` are stored in `latest_measurement`
and returned; on any failure (i2c error or `InvalidCRC` from `_decode`)
the exception propagates before the assignment, so the session is returned
unchanged. -/
def measure (s : Session) (busRead : Except PyErr (List Nat)) :
    Session × Except PyErr (Nat × Nat) :=
  match _command_read busRead 2 with
  | .error e => (s, .error e)
  | .ok data =>
    let m := (data.getD 0 0, data.getD 1 0)
    ({ latest_measurement := some m }, .ok m)

/-- The polling loop of `SGP30.initialise` when no baseline is given:
`for _ in range(20): sleep(1); result = self.measure(); if
result.equivalent_co2 != 400: break`.  `co2 i` is the equivalent-CO2 word
returned by the i-th `measure()` call; the result is the pair
(number of `sleep(1)` calls, number of `measure()` calls) performed. -/
def initLoop (co2 : Nat → Nat) : Nat → Nat → Nat × Nat
  | 0, _ => (0, 0)
  | fuel + 1, i =>
    if co2 i ≠ 400 then (1, 1)
    else
      let r := initLoop co2 fuel (i + 1)
      (r.1 + 1, r.2 + 1)

/-- Trace of one `initialise` call: the bus writes issued directly by
`initialise` itself (the init command), and the numbers of `sleep(1)` and
`measure()` calls performed by the polling loop. -/
structure InitTrace where
  writes : List (List Nat)
  sleeps : Nat
  measures : Nat
deriving DecidableEq, Repr

/-- `SGP30.initialise(baseline=None)`: issue the init command `20 03`
(no response expected), then poll `measure()` up to 20 times, sleeping one
second before each poll, breaking once a poll returns
`equivalent_co2 != 400`. -/
def initialise_noBaseline (co2 : Nat → Nat) : InitTrace :=
  let r := initLoop co2 20 0
  { writes := [[0x20, 0x03]], sleeps := r.1, measures := r.2 }

end SGP30

namespace SGP30

theorem encode_ok (W : List Nat) (hW : ∀ w ∈ W, w < 65536) :
    _encode (W.map Int.ofNat) = .ok (encodeNat W) := by
  induction W with
  | nil => rfl
  | cons w ws ih =>
    have hw : w < 65536 := hW w (List.mem_cons_self w ws)
    have hws : ∀ x ∈ ws, x < 65536 := fun x hx => hW x (List.mem_cons_of_mem w hx)
    simp only [List.map_cons, _encode, encodeNat, ih hws]
    rw [if_pos]
    · simp [Int.toNat_ofNat]
    · exact ⟨Int.ofNat_nonneg w, Int.ofNat_lt.mpr hw⟩

theorem command_write_some (c : List Nat) (ps : List Int) (f : List Nat)
    (h : _encode ps = .ok f) : _command_write c (some ps) = ([c ++ f], .ok ()) := by
  have hm : _command_write c (some ps) =
      (match _encode ps with
        | Except.ok frame => ([c ++ frame], Except.ok ())
        | Except.error e => (([] : List (List Nat)), (Except.error e : Except PyErr Unit))) := rfl
  rw [hm, h]

theorem decode_encodeNat (W : List Nat) (hW : ∀ w ∈ W, w < 65536) :
    _decode (encodeNat W) W.length = .ok W := by
  induction W with
  | nil => rfl
  | cons w ws ih =>
    have hws : ∀ x ∈ ws, x < 65536 := fun x hx => hW x (List.mem_cons_of_mem w hx)
    show _decode ((w / 256) :: (w % 256) :: _crc (w / 256) (w % 256) :: encodeNat ws)
        (ws.length + 1) = .ok (w :: ws)
    rw [_decode, if_neg (by simp), ih hws]
    have hw : w / 256 * 256 + w % 256 = w := by omega
    rw [hw]

/-- C2: for every sequence of 16-bit words, `_decode (_encode W) (len W)`
returns exactly `W`, in order. -/
theorem encode_decode_roundtrip (W : List Nat) (hW : ∀ w ∈ W, w < 65536) :
    ∃ frame, _encode (W.map Int.ofNat) = .ok frame ∧ _decode frame W.length = .ok W :=
  ⟨encodeNat W, encode_ok W hW, decode_encodeNat W hW⟩

/-- Witness for C2 at the concrete word list `[48879, 0]`. -/
theorem encode_decode_roundtrip_witness :
    ∃ frame, _encode ([48879, 0].map Int.ofNat) = .ok frame ∧
      _decode frame 2 = .ok [48879, 0] :=
  encode_decode_roundtrip [48879, 0] (by decide)

/-- C8: the checksum is a pure function of its two input bytes that always
fits in one byte, and it matches the known vectors `0x01 0x90 ↦ 0x4C`,
`0x00 0x00 ↦ 0x81` and `0xBE 0xEF ↦ 0x92` of the stated CRC-8 algorithm
(polynomial 0x31, init 0xFF, no reflection, mask to 8 bits at the end). -/
theorem crc_vectors :
    _crc 0x01 0x90 = 0x4C ∧ _crc 0x00 0x00 = 0x81 ∧ _crc 0xBE 0xEF = 0x92 ∧
    ∀ a b : Nat, _crc a b < 256 := by
  refine ⟨by decide, by decide, by decide, fun a b => ?_⟩
  have h := Nat.and_le_right (n := crcByte (crcByte 0xFF a) b) (m := 0xFF)
  unfold _crc
  omega

/-- C9: the frame codec matches the concrete vectors
`_encode [0] = 00 00 81`, `_encode [48879, 0] = BE EF 92 00 00 81`,
`_decode (00 00 81) 1 = [0]` and `_decode (BE EF 92 00 00 81) 2 = [48879, 0]`. -/
theorem codec_vectors :
    _encode [0] = .ok [0x00, 0x00, 0x81] ∧
    _encode [48879, 0] = .ok [0xBE, 0xEF, 0x92, 0x00, 0x00, 0x81] ∧
    _decode [0x00, 0x00, 0x81] 1 = .ok [0] ∧
    _decode [0xBE, 0xEF, 0x92, 0x00, 0x00, 0x81] 2 = .ok [48879, 0] :=
  ⟨rfl, rfl, rfl, rfl⟩

theorem pyInt_nonpos_of_neg (q : ℚ) (hq : q < 0) : pyInt q ≤ 0 := by
  unfold pyInt
  rw [if_neg (not_le.mpr hq)]
  exact Int.ceil_le.mpr (by exact_mod_cast le_of_lt hq)

/-- C6: for every humidity argument whose integer part exceeds 255,
`set_humidity` raises `ValueError` before any bus I/O: zero write
transactions occur and the session state is unchanged. -/
theorem set_humidity_out_of_range (s : Session) (q : ℚ) (h : 255 < pyInt q) :
    set_humidity s q = (s, [], .error .valueError) := by
  unfold set_humidity
  rw [if_pos h]

/-- Witness for C6 at `set_humidity(256)`. -/
theorem set_humidity_out_of_range_witness :
    set_humidity ⟨none⟩ 256 = (⟨none⟩, [], .error .valueError) :=
  set_humidity_out_of_range ⟨none⟩ 256
    (by unfold pyInt; rw [if_pos (by norm_num)]; norm_num)

/-- C1 (evaluation at the failing input): `set_humidity(15.50)` performs
exactly one bus write, `20 61 0F 70 E0` — the parameter word is
`int(15.5 * 255) = 3952 = 0x0F70` — which is not the transaction
`20 61 0F 80 62` (word 0x0F80 = 3968 = 15.5 * 256) required by the spec
sentence and by the repository's own test `test_set_humidity`. -/
theorem set_humidity_at_15_5 :
    (set_humidity ⟨none⟩ (31 / 2)).2 = ([[0x20, 0x61, 0x0F, 0x70, 0xE0]], .ok ()) ∧
    (set_humidity ⟨none⟩ (31 / 2)).2.1 ≠ [[0x20, 0x61, 0x0F, 0x80, 0x62]] := by
  have h1 : pyInt (31 / 2) = 15 := by
    unfold pyInt; rw [if_pos (by norm_num)]; norm_num
  have h2 : pyInt (31 / 2 * 255) = 3952 := by
    unfold pyInt; rw [if_pos (by norm_num)]; norm_num
  have key : (set_humidity ⟨none⟩ (31 / 2)).2 = ([[0x20, 0x61, 0x0F, 0x70, 0xE0]], .ok ()) := by
    unfold set_humidity
    rw [if_neg (by rw [h1]; decide), h2]
    rfl
  exact ⟨key, by rw [key]; decide⟩

/-- C10: the `set_humidity` validation raises `ValueError` exactly when the
integer part of the argument exceeds 255; every negative argument passes the
validation (the spec's lower bound 0 is never enforced there), and a
negative argument whose scaled word `int(humidity * 255)` is negative only
fails later, in `_encode`'s `pack`, with a `struct.error` and zero writes. -/
theorem set_humidity_validation (s : Session) (q : ℚ) :
    ((set_humidity s q).2.2 = .error .valueError ↔ 255 < pyInt q) ∧
    (q < 0 → (set_humidity s q).2.2 ≠ .error .valueError) ∧
    (q < 0 → pyInt (q * 255) < 0 →
      (set_humidity s q).2.2 = .error .structError ∧ (set_humidity s q).2.1 = []) := by
  by_cases h : 255 < pyInt q
  · have e : set_humidity s q = (s, [], .error .valueError) := by
      unfold set_humidity; rw [if_pos h]
    refine ⟨?_, ?_, ?_⟩
    · rw [e]; simp [h]
    · intro hq
      exact absurd h (not_lt.mpr (le_trans (pyInt_nonpos_of_neg q hq) (by omega)))
    · intro hq _
      exact absurd h (not_lt.mpr (le_trans (pyInt_nonpos_of_neg q hq) (by omega)))
  · have e : set_humidity s q =
        (s, _command_write [0x20, 0x61] (some [pyInt (q * 255)])) := by
      unfold set_humidity; rw [if_neg h]
    by_cases hr : 0 ≤ pyInt (q * 255) ∧ pyInt (q * 255) < 65536
    · have ec : _command_write [0x20, 0x61] (some [pyInt (q * 255)]) =
          ([[0x20, 0x61] ++ encodeWord (pyInt (q * 255)).toNat], .ok ()) := by
        simp only [_command_write, _encode]
        rw [if_pos hr]
        simp
      refine ⟨?_, ?_, ?_⟩
      · rw [e, ec]; simp [h]
      · intro _; rw [e, ec]; simp
      · intro _ hneg; exact absurd hr.1 (not_le.mpr hneg)
    · have ec : _command_write [0x20, 0x61] (some [pyInt (q * 255)]) =
          ([], .error .structError) := by
        simp only [_command_write, _encode]
        rw [if_neg hr]
      refine ⟨?_, ?_, ?_⟩
      · rw [e, ec]; simp [h]
      · intro _; rw [e, ec]; simp
      · intro _ _; rw [e, ec]; exact ⟨rfl, rfl⟩

/-- Witness for C10 at `set_humidity(-1)`: the validation passes and the
call fails only later, in parameter encoding, with zero bus writes. -/
theorem set_humidity_validation_witness :
    (set_humidity ⟨none⟩ (-1)).2.2 = .error .structError ∧
      (set_humidity ⟨none⟩ (-1)).2.1 = [] :=
  (set_humidity_validation ⟨none⟩ (-1)).2.2 (by norm_num)
    (by
      have h : (-1 * 255 : ℚ) = -(255 : ℚ) := by norm_num
      unfold pyInt
      rw [if_neg (by norm_num), h, Int.ceil_neg]
      norm_num)

/-- C7: if `measure()` fails — the bus read/write raises, or `_decode` of
the 2-word response raises `InvalidCRC` — the error propagates to the
caller and `latest_measurement` is left unchanged: there is no
partial-success state. -/
theorem measure_error_keeps_state (s : Session) (busRead : Except PyErr (List Nat))
    (e : PyErr) (h : _command_read busRead 2 = .error e) :
    measure s busRead = (s, .error e) := by
  unfold measure
  rw [h]

/-- Witness for C7 on a response frame whose first block has a wrong
checksum byte. -/
theorem measure_error_keeps_state_witness :
    measure ⟨some (400, 10)⟩ (.ok [0, 0, 0, 0, 0, 0]) =
      (⟨some (400, 10)⟩, .error (.invalidCRC [0, 0] [0])) :=
  measure_error_keeps_state ⟨some (400, 10)⟩ (.ok [0, 0, 0, 0, 0, 0])
    (.invalidCRC [0, 0] [0]) rfl

/-- C5: for every baseline pair `(a, b)` of 16-bit words, the getter
exposes the two response words in order `(co2eq, tvoc) = (word0, word1)`,
while the setter writes the parameter words on the wire in reversed order:
word `b` (tvoc) is emitted before word `a` (co2eq) in the single write
transaction. -/
theorem baseline_order (a b : Nat) (ha : a < 65536) (hb : b < 65536) :
    baseline_set (a, b) = ([[0x20, 0x1E] ++ encodeWord b ++ encodeWord a], .ok ()) ∧
    baseline_get (.ok (encodeNat [a, b])) = .ok (a, b) := by
  constructor
  · have hba : ∀ w ∈ [b, a], w < 65536 := by
      intro w hw
      simp only [List.mem_cons, List.not_mem_nil, or_false] at hw
      rcases hw with rfl | rfl
      · exact hb
      · exact ha
    have he : _encode [Int.ofNat b, Int.ofNat a] =
        .ok (encodeWord b ++ (encodeWord a ++ [])) := encode_ok [b, a] hba
    have hcmd := command_write_some [0x20, 0x1E] [Int.ofNat b, Int.ofNat a] _ he
    show _command_write [0x20, 0x1E] (some [Int.ofNat b, Int.ofNat a]) = _
    rw [hcmd]
    simp [List.append_assoc]
  · have hab : ∀ w ∈ [a, b], w < 65536 := by
      intro w hw
      simp only [List.mem_cons, List.not_mem_nil, or_false] at hw
      rcases hw with rfl | rfl
      · exact ha
      · exact hb
    have hd : _decode (encodeNat [a, b]) 2 = .ok [a, b] := decode_encodeNat [a, b] hab
    simp only [baseline_get, _command_read, hd]
    simp [List.getD]

/-- Witness for C5 at the concrete baseline `(1, 2)`. -/
theorem baseline_order_witness :
    baseline_set (1, 2) = ([[0x20, 0x1E] ++ encodeWord 2 ++ encodeWord 1], .ok ()) ∧
    baseline_get (.ok (encodeNat [1, 2])) = .ok (1, 2) :=
  baseline_order 1 2 (by decide) (by decide)

theorem initLoop_sleeps_eq_measures (co2 : Nat → Nat) :
    ∀ fuel i, (initLoop co2 fuel i).1 = (initLoop co2 fuel i).2 := by
  intro fuel
  induction fuel with
  | zero => intro i; rfl
  | succ n ih =>
    intro i
    by_cases h : co2 i ≠ 400
    · simp [initLoop, h]
    · simp only [initLoop, if_neg h]
      simpa using ih (i + 1)

theorem initLoop_measures_le (co2 : Nat → Nat) :
    ∀ fuel i, (initLoop co2 fuel i).2 ≤ fuel := by
  intro fuel
  induction fuel with
  | zero => intro i; exact Nat.le_refl 0
  | succ n ih =>
    intro i
    by_cases h : co2 i ≠ 400
    · simp [initLoop, h]
    · simp only [initLoop, if_neg h]
      simpa using ih (i + 1)

theorem initLoop_prefix_sentinel (co2 : Nat → Nat) :
    ∀ fuel i j, j + 1 < (initLoop co2 fuel i).2 → co2 (i + j) = 400 := by
  intro fuel
  induction fuel with
  | zero => intro i j hj; simp [initLoop] at hj
  | succ n ih =>
    intro i j hj
    by_cases h : co2 i ≠ 400
    · simp [initLoop, h] at hj
    · simp only [initLoop, if_neg h] at hj
      cases j with
      | zero => simpa using not_ne_iff.mp h
      | succ j' =>
        have : j' + 1 < (initLoop co2 n (i + 1)).2 := by
          simpa using Nat.lt_of_succ_lt_succ hj
        have hres := ih (i + 1) j' this
        have harith : i + 1 + j' = i + (j' + 1) := by omega
        rwa [harith] at hres

theorem initLoop_first_break (co2 : Nat → Nat) (fuel i : Nat)
    (hf : 0 < fuel) (h : co2 i ≠ 400) : initLoop co2 fuel i = (1, 1) := by
  cases fuel with
  | zero => omega
  | succ n => simp [initLoop, h]

/-- C4: `initialise(None)` issues the init command `20 03` and then polls
`measure()` at most 20 times, with one `sleep(1)` per poll; every poll
strictly before the last one returned the sentinel 400 (so polling stops
as soon as a poll returns `equivalent_co2 != 400`), and if already the
first poll returns a value different from 400, exactly one `measure()`
call and one `sleep(1)` occur. -/
theorem initialise_polling (co2 : Nat → Nat) :
    (initialise_noBaseline co2).writes = [[0x20, 0x03]] ∧
    (initialise_noBaseline co2).measures ≤ 20 ∧
    (initialise_noBaseline co2).sleeps = (initialise_noBaseline co2).measures ∧
    (∀ j, j + 1 < (initialise_noBaseline co2).measures → co2 j = 400) ∧
    (co2 0 ≠ 400 →
      (initialise_noBaseline co2).measures = 1 ∧ (initialise_noBaseline co2).sleeps = 1) := by
  refine ⟨rfl, ?_, ?_, ?_, ?_⟩
  · exact initLoop_measures_le co2 20 0
  · exact initLoop_sleeps_eq_measures co2 20 0
  · intro j hj
    have := initLoop_prefix_sentinel co2 20 0 j hj
    simpa using this
  · intro h0
    have hres := initLoop_first_break co2 20 0 (by omega) h0
    constructor
    · show (initLoop co2 20 0).2 = 1
      rw [hres]
    · show (initLoop co2 20 0).1 = 1
      rw [hres]

/-- Witness for C4: with a device that answers 500 ppm at once, exactly one
poll and one sleep happen. -/
theorem initialise_polling_witness :
    (initialise_noBaseline (fun _ => 500)).measures = 1 ∧
      (initialise_noBaseline (fun _ => 500)).sleeps = 1 :=
  (initialise_polling (fun _ => 500)).2.2.2.2 (by decide)

theorem shiftLeft_xor_distrib (x y n : Nat) : (x ^^^ y) <<< n = x <<< n ^^^ y <<< n := by
  apply Nat.eq_of_testBit_eq
  intro i
  simp only [Nat.testBit_shiftLeft, Nat.testBit_xor]
  by_cases h : n ≤ i
  · simp [ge_iff_le, h]
  · simp [ge_iff_le, h]

theorem xor_right_comm (a b c : Nat) : a ^^^ b ^^^ c = a ^^^ c ^^^ b := by
  rw [Nat.xor_assoc, Nat.xor_comm b c, ← Nat.xor_assoc]

theorem xor_xor_cancel (a b c : Nat) : (a ^^^ c) ^^^ (b ^^^ c) = a ^^^ b := by
  apply Nat.eq_of_testBit_eq
  intro i
  simp only [Nat.testBit_xor]
  cases a.testBit i <;> cases b.testBit i <;> cases c.testBit i <;> rfl

theorem step_xor (x y : Nat) : step (x ^^^ y) = step x ^^^ step y := by
  unfold step
  rw [Nat.testBit_xor]
  cases hx : x.testBit 7 <;> cases hy : y.testBit 7
  · simp [shiftLeft_xor_distrib]
  · simp only [Bool.false_xor, if_true, if_false]
    rw [shiftLeft_xor_distrib, Nat.xor_assoc, if_neg Bool.false_ne_true]
  · simp only [Bool.xor_false, if_true, if_false]
    rw [shiftLeft_xor_distrib, xor_right_comm, if_neg Bool.false_ne_true]
  · simp only [Bool.xor_self, if_true, if_false]
    rw [xor_xor_cancel, shiftLeft_xor_distrib, if_neg Bool.false_ne_true]

theorem crcRounds_xor (n x y : Nat) :
    crcRounds n (x ^^^ y) = crcRounds n x ^^^ crcRounds n y := by
  induction n generalizing x y with
  | zero => rfl
  | succ m ih =>
    show crcRounds m (step (x ^^^ y)) = crcRounds m (step x) ^^^ crcRounds m (step y)
    rw [step_xor, ih]

theorem crcRounds_comp (m n x : Nat) :
    crcRounds m (crcRounds n x) = crcRounds (m + n) x := by
  induction n generalizing x with
  | zero => rfl
  | succ k ih =>
    show crcRounds m (crcRounds k (step x)) = crcRounds (m + (k + 1)) x
    rw [ih]
    rfl

theorem land_xor_distrib (x y m : Nat) : (x ^^^ y) &&& m = (x &&& m) ^^^ (y &&& m) := by
  apply Nat.eq_of_testBit_eq
  intro i
  simp only [Nat.testBit_land, Nat.testBit_xor]
  cases x.testBit i <;> cases y.testBit i <;> cases m.testBit i <;> rfl

theorem crc_xor_left (b0 b1 e : Nat) :
    _crc (b0 ^^^ e) b1 = _crc b0 b1 ^^^ (crcRounds 16 e &&& 0xFF) := by
  unfold _crc crcByte
  rw [show (0xFF ^^^ (b0 ^^^ e)) = ((0xFF ^^^ b0) ^^^ e) from (Nat.xor_assoc 0xFF b0 e).symm]
  rw [crcRounds_xor 8 (0xFF ^^^ b0) e]
  rw [show (crcRounds 8 (0xFF ^^^ b0) ^^^ crcRounds 8 e) ^^^ b1
      = (crcRounds 8 (0xFF ^^^ b0) ^^^ b1) ^^^ crcRounds 8 e from xor_right_comm _ _ _]
  rw [crcRounds_xor, crcRounds_comp, land_xor_distrib]

theorem crc_xor_right (b0 b1 e : Nat) :
    _crc b0 (b1 ^^^ e) = _crc b0 b1 ^^^ (crcRounds 8 e &&& 0xFF) := by
  unfold _crc crcByte
  rw [show crcRounds 8 (0xFF ^^^ b0) ^^^ (b1 ^^^ e)
      = (crcRounds 8 (0xFF ^^^ b0) ^^^ b1) ^^^ e from (Nat.xor_assoc _ _ _).symm]
  rw [crcRounds_xor, land_xor_distrib]

theorem crcDelta_ne_zero :
    ∀ j < 8, crcRounds 16 (1 <<< j) &&& 0xFF ≠ 0 ∧ crcRounds 8 (1 <<< j) &&& 0xFF ≠ 0 := by
  decide

theorem xor_ne_self_of_ne_zero (a d : Nat) (hd : d ≠ 0) : a ^^^ d ≠ a := by
  intro h
  apply hd
  have h2 : a ^^^ (a ^^^ d) = a ^^^ a := by rw [h]
  rwa [← Nat.xor_assoc, Nat.xor_self, Nat.zero_xor] at h2

theorem one_shiftLeft_ne_zero (j : Nat) : 1 <<< j ≠ 0 := by
  rw [Nat.one_shiftLeft]
  exact Nat.pos_iff_ne_zero.mp (pow_pos (by omega) j)

theorem flipBit_cons3 (x0 x1 x2 : Nat) (t : List Nat) (m j : Nat) :
    flipBit (x0 :: x1 :: x2 :: t) (m + 3) j = x0 :: x1 :: x2 :: flipBit t m j := rfl

theorem drop_cons3 (x0 x1 x2 : Nat) (t : List Nat) (m : Nat) :
    (x0 :: x1 :: x2 :: t).drop (m + 3) = t.drop m := rfl

theorem decode_flip_encodeNat (W : List Nat) :
    ∀ i k j, i < W.length → k < 3 → j < 8 →
    ∃ d0 d1 c2,
      _decode (flipBit (encodeNat W) (3 * i + k) j) W.length =
        .error (.invalidCRC [d0, d1] [c2]) ∧
      [d0, d1, c2] = ((flipBit (encodeNat W) (3 * i + k) j).drop (3 * i)).take 3 := by
  induction W with
  | nil =>
    intro i k j hi _ _
    exact absurd hi (Nat.not_lt_zero i)
  | cons w ws ih =>
    intro i k j hi hk hj
    cases i with
    | zero =>
      rcases k with _ | _ | _ | k
      · have hne : _crc (w / 256 ^^^ 1 <<< j) (w % 256) ≠ _crc (w / 256) (w % 256) := by
          rw [crc_xor_left]
          exact xor_ne_self_of_ne_zero _ _ (crcDelta_ne_zero j hj).1
        refine ⟨w / 256 ^^^ 1 <<< j, w % 256, _crc (w / 256) (w % 256), ?_, rfl⟩
        show _decode ((w / 256 ^^^ 1 <<< j) :: w % 256 :: _crc (w / 256) (w % 256) ::
            encodeNat ws) (ws.length + 1) = _
        rw [_decode, if_pos hne]
      · have hne : _crc (w / 256) (w % 256 ^^^ 1 <<< j) ≠ _crc (w / 256) (w % 256) := by
          rw [crc_xor_right]
          exact xor_ne_self_of_ne_zero _ _ (crcDelta_ne_zero j hj).2
        refine ⟨w / 256, w % 256 ^^^ 1 <<< j, _crc (w / 256) (w % 256), ?_, rfl⟩
        show _decode (w / 256 :: (w % 256 ^^^ 1 <<< j) :: _crc (w / 256) (w % 256) ::
            encodeNat ws) (ws.length + 1) = _
        rw [_decode, if_pos hne]
      · have hne : _crc (w / 256) (w % 256) ≠ _crc (w / 256) (w % 256) ^^^ 1 <<< j := by
          intro h
          exact xor_ne_self_of_ne_zero _ _ (one_shiftLeft_ne_zero j) h.symm
        refine ⟨w / 256, w % 256, _crc (w / 256) (w % 256) ^^^ 1 <<< j, ?_, rfl⟩
        show _decode (w / 256 :: w % 256 :: (_crc (w / 256) (w % 256) ^^^ 1 <<< j) ::
            encodeNat ws) (ws.length + 1) = _
        rw [_decode, if_pos hne]
      · omega
    | succ i' =>
      have hi' : i' < ws.length := by
        simpa using Nat.lt_of_succ_lt_succ hi
      obtain ⟨d0, d1, c2, hdec, hbytes⟩ := ih i' k j hi' hk hj
      have hp : 3 * (i' + 1) + k = 3 * i' + k + 3 := by ring
      have hq : 3 * (i' + 1) = 3 * i' + 3 := by ring
      refine ⟨d0, d1, c2, ?_, ?_⟩
      · rw [hp]
        show _decode (flipBit (w / 256 :: w % 256 :: _crc (w / 256) (w % 256) ::
            encodeNat ws) (3 * i' + k + 3) j) (ws.length + 1) = _
        rw [flipBit_cons3, _decode, if_neg (by simp), hdec]
      · rw [hp, hq]
        show [d0, d1, c2] = ((flipBit (w / 256 :: w % 256 :: _crc (w / 256) (w % 256) ::
            encodeNat ws) (3 * i' + k + 3) j).drop (3 * i' + 3)).take 3
        rw [flipBit_cons3, drop_cons3]
        exact hbytes

/-- C3: for every frame produced by `_encode` and every single-bit flip in
one block's checksum byte or in one of its two data bytes, `_decode` on the
corrupted frame raises `InvalidCRC`, and the error carries exactly the data
and checksum bytes of the corrupted block — which is the first mismatching
block, all earlier blocks being untouched and valid — without returning any
decoded words. -/
theorem decode_detects_flip (W : List Nat) (hW : ∀ w ∈ W, w < 65536)
    (frame : List Nat) (henc : _encode (W.map Int.ofNat) = .ok frame)
    (i k j : Nat) (hi : i < W.length) (hk : k < 3) (hj : j < 8) :
    ∃ d0 d1 c2,
      _decode (flipBit frame (3 * i + k) j) W.length =
        .error (.invalidCRC [d0, d1] [c2]) ∧
      [d0, d1, c2] = ((flipBit frame (3 * i + k) j).drop (3 * i)).take 3 := by
  have h2 := encode_ok W hW
  rw [henc] at h2
  injection h2 with h3
  subst h3
  exact decode_flip_encodeNat W i k j hi hk hj

/-- Witness for C3: flipping bit 0 of the checksum byte of the frame of
`[0]` makes `_decode` fail with `InvalidCRC` carrying that block. -/
theorem decode_detects_flip_witness :
    ∃ d0 d1 c2,
      _decode (flipBit [0x00, 0x00, 0x81] (3 * 0 + 2) 0) 1 =
        .error (.invalidCRC [d0, d1] [c2]) ∧
      [d0, d1, c2] = ((flipBit [0x00, 0x00, 0x81] (3 * 0 + 2) 0).drop (3 * 0)).take 3 :=
  decode_detects_flip [0] (by decide) [0x00, 0x00, 0x81] rfl 0 2 0
    (by decide) (by decide) (by decide)

end SGP30
